import Mathlib

/-!
Verification of the `simplego` DotGeneral fast-path engine of this repository.

Shallow embedding conventions:
* Go slices of `float32` are modelled as `List ℚ`; float32 arithmetic is
  idealised as exact rational arithmetic (the repository only promises
  tolerance-level agreement between tiers, and every concrete scenario in the
  spec uses small integers on which float32 arithmetic is exact).
* Go `int` values used as axis indices are modelled as `ℤ`; sizes and loop
  bounds, which are non-negative in every reachable call, as `ℕ`.
* Out-of-range slice reads are modelled with `List.getD _ _ 0`; theorems that
  depend on a read carry the corresponding in-bounds hypothesis.
* Go `for` loops are translated into structural recursion on the number of
  remaining iterations.
-/

namespace SimpleGo

/-- Data types, from `gopjrt/dtypes` (external dependency of the repository);
only the tags the classifier distinguishes are needed. -/
inductive DType where
  | Float32
  | Float64
  | Float16
  | BFloat16
  | Int32
  | Int64
  deriving DecidableEq, Repr

/-- `shapes.Shape`: a data type together with the ordered dimension sizes. -/
structure Shape where
  dtype : DType
  dims : List ℕ
  deriving DecidableEq, Repr

/-- `Shape.Rank()` is the number of dimensions. -/
def Shape.rank (s : Shape) : ℕ := s.dims.length

/-- A `Buffer`: flat float32 data plus its shape (dtype and dims).
Only float32 buffers ever reach the fast-path kernel, so the flat data is
carried at `List ℚ`. -/
structure Buffer where
  shape : Shape
  flat : List ℚ
  deriving Repr

/-- The contraction metadata `dotGeneralNodeData` carried by a DotGeneral node:
axis lists for both operands plus the pre-computed sizes used by the kernel. -/
structure DotGeneralNodeData where
  lhsContractingAxes : List ℤ
  rhsContractingAxes : List ℤ
  lhsBatchAxes : List ℤ
  rhsBatchAxes : List ℤ
  batchSize : ℕ
  lhsCrossSize : ℕ
  rhsCrossSize : ℕ
  contractingSize : ℕ
  deriving Repr

/-- `isStandardMatmul` from `dotgeneral` fast-path source: recognises the four
canonical positional matmul patterns (matrix×matrix, matrix×vector, batched,
double-batched), translated branch by branch from the Go code. -/
def isStandardMatmul (lhsShape rhsShape : Shape)
    (lhsContractingAxes rhsContractingAxes lhsBatchAxes rhsBatchAxes : List ℤ) : Bool :=
  -- Standard matrix-matrix multiplication: [M, K] × [K, N]
  if lhsShape.rank = 2 ∧ rhsShape.rank = 2 ∧
      lhsContractingAxes.length = 1 ∧ rhsContractingAxes.length = 1 ∧
      lhsBatchAxes.length = 0 ∧ rhsBatchAxes.length = 0 ∧
      lhsContractingAxes.getD 0 0 = 1 ∧ rhsContractingAxes.getD 0 0 = 0 then
    true
  -- Matrix-vector multiplication: [M, K] × [K]
  else if lhsShape.rank = 2 ∧ rhsShape.rank = 1 ∧
      lhsContractingAxes.length = 1 ∧ rhsContractingAxes.length = 1 ∧
      lhsBatchAxes.length = 0 ∧ rhsBatchAxes.length = 0 ∧
      lhsContractingAxes.getD 0 0 = 1 ∧ rhsContractingAxes.getD 0 0 = 0 then
    true
  -- Batched matrix multiplication: [B, M, K] × [B, K, N]
  else if lhsShape.rank = 3 ∧ rhsShape.rank = 3 ∧
      lhsContractingAxes.length = 1 ∧ rhsContractingAxes.length = 1 ∧
      lhsBatchAxes.length = 1 ∧ rhsBatchAxes.length = 1 ∧
      lhsBatchAxes.getD 0 0 = 0 ∧ rhsBatchAxes.getD 0 0 = 0 ∧
      lhsContractingAxes.getD 0 0 = 2 ∧ rhsContractingAxes.getD 0 0 = 1 then
    true
  -- Multi-batch matmul: [B1, B2, M, K] × [B1, B2, K, N]
  else if lhsShape.rank = 4 ∧ rhsShape.rank = 4 ∧
      lhsContractingAxes.length = 1 ∧ rhsContractingAxes.length = 1 ∧
      lhsBatchAxes.length = 2 ∧ rhsBatchAxes.length = 2 ∧
      lhsBatchAxes.getD 0 0 = 0 ∧ lhsBatchAxes.getD 1 0 = 1 ∧
      rhsBatchAxes.getD 0 0 = 0 ∧ rhsBatchAxes.getD 1 0 = 1 ∧
      lhsContractingAxes.getD 0 0 = 3 ∧ rhsContractingAxes.getD 0 0 = 2 then
    true
  else
    false

/-- `isMemoryContiguous`: builds the expected axis order (batch axes, then the
cross axes in increasing position, then contracting axes) and checks it is the
identity permutation `0, 1, 2, …`. -/
def isMemoryContiguous (shape : Shape) (contractingAxes batchAxes : List ℤ) : Bool :=
  let rank := shape.rank
  if rank = 0 then
    true
  else
    let crossAxes := (List.range rank).filterMap (fun i =>
      if ¬ contractingAxes.contains (i : ℤ) ∧ ¬ batchAxes.contains (i : ℤ) then
        some (i : ℤ)
      else none)
    let expectedOrder := batchAxes ++ crossAxes ++ contractingAxes
    decide (∀ i ∈ Finset.range expectedOrder.length,
      expectedOrder.getD i 0 = (i : ℤ))

/-- `canUseFastPath`: float32 gate followed by the positional pattern check. -/
def canUseFastPath (lhs rhs : Buffer) (params : DotGeneralNodeData) : Bool :=
  -- Only support float32 fast path for now (most common)
  if lhs.shape.dtype ≠ DType.Float32 then
    false
  -- Check if it's a standard matmul pattern
  else if ¬ isStandardMatmul lhs.shape rhs.shape
      params.lhsContractingAxes params.rhsContractingAxes
      params.lhsBatchAxes params.rhsBatchAxes then
    false
  else
    true

/-- Reference dot product over `n` elements starting at offsets `i` and `j`:
`∑ k < n, a[i+k] * b[j+k]`.  This is the mathematical value every dot-product
primitive of the engine computes. -/
def dotRange (a b : List ℚ) (i j n : ℕ) : ℚ :=
  ∑ k ∈ Finset.range n, a.getD (i + k) 0 * b.getD (j + k) 0

/-- The scalar remainder loop `for ; k < K; k++ { sum += lhs[..+k]*rhs[..+k] }`,
iterating on the number `r` of remaining elements. -/
def scalarRem (lhs rhs : List ℚ) : ℕ → ℕ → ℚ → ℕ → ℚ
  | _, _, sum, 0 => sum
  | i, j, sum, r + 1 =>
      scalarRem lhs rhs (i + 1) (j + 1) (sum + lhs.getD i 0 * rhs.getD j 0) r

/-- The scalar fallback inner loop of `execDotGeneralFastPathFloat32`:
unrolled by 8 (`k+7 < K`, i.e. 8 ≤ remaining), then the remainder loop. -/
def scalarDotAux (lhs rhs : List ℚ) (i j : ℕ) (sum : ℚ) (rem : ℕ) : ℚ :=
  if h : 8 ≤ rem then
    scalarDotAux lhs rhs (i + 8) (j + 8)
      (sum + (lhs.getD i 0 * rhs.getD j 0 +
        lhs.getD (i + 1) 0 * rhs.getD (j + 1) 0 +
        lhs.getD (i + 2) 0 * rhs.getD (j + 2) 0 +
        lhs.getD (i + 3) 0 * rhs.getD (j + 3) 0 +
        lhs.getD (i + 4) 0 * rhs.getD (j + 4) 0 +
        lhs.getD (i + 5) 0 * rhs.getD (j + 5) 0 +
        lhs.getD (i + 6) 0 * rhs.getD (j + 6) 0 +
        lhs.getD (i + 7) 0 * rhs.getD (j + 7) 0))
      (rem - 8)
  else
    scalarRem lhs rhs i j sum rem
termination_by rem
decreasing_by omega

/-- The scalar dot product of `execDotGeneralFastPathFloat32` (lines 211–227 of
the fast-path source): accumulator starts at 0, `K` elements from offsets
`i` (lhs row start) and `j` (rhs column start). -/
def scalarDot (lhs rhs : List ℚ) (i j K : ℕ) : ℚ :=
  scalarDotAux lhs rhs i j 0 K

/-- The two NEON assembly primitives (`dotProduct_neon_asm` and
`dotProductGroup4_neon_asm`, implemented in assembly outside the Go sources),
abstracted as oracles indexed by the flat start offsets.  Every claim below
concerns executions where NEON is unavailable, so their values never matter. -/
structure NeonOracle where
  single : ℕ → ℕ → ℚ
  group4 : ℕ → ℕ → ℚ × ℚ × ℚ × ℚ

/-- Value written for output column `n`: NEON single-dot when `useNEON`, else
the scalar unrolled dot product over the `K` contracted elements. -/
def columnValue (useNEON : Bool) (neon : NeonOracle) (lhs rhs : List ℚ)
    (K lhsRowStart rhsBaseIdx n : ℕ) : ℚ :=
  if useNEON then
    neon.single lhsRowStart (rhsBaseIdx + n * K)
  else
    scalarDot lhs rhs lhsRowStart (rhsBaseIdx + n * K) K

/-- The remaining-columns loop `for ; n < rhsCrossSize; n++`, iterating on the
count `c` of remaining columns; each iteration writes one output element. -/
def remCols (useNEON : Bool) (neon : NeonOracle) (lhs rhs : List ℚ)
    (K lhsRowStart rhsBaseIdx outputRowStart : ℕ) :
    ℕ → List ℚ → ℕ → List ℚ
  | _, acc, 0 => acc
  | n, acc, c + 1 =>
      remCols useNEON neon lhs rhs K lhsRowStart rhsBaseIdx outputRowStart
        (n + 1)
        (acc.set (outputRowStart + n)
          (columnValue useNEON neon lhs rhs K lhsRowStart rhsBaseIdx n))
        c

/-- The NEON Group4 column loop `for ; n+3 < rhsCrossSize; n += 4`, writing
four output elements per iteration; `fuel` bounds the iteration count (the
loop advances `n` by 4 each step, so `fuel = N` iterations always suffice).
Returns the final column index together with the updated output. -/
def group4Cols (neon : NeonOracle) (K N lhsRowStart rhsBaseIdx outputRowStart : ℕ) :
    ℕ → ℕ → List ℚ → ℕ × List ℚ
  | 0, n, acc => (n, acc)
  | fuel + 1, n, acc =>
      if n + 3 < N then
        let r := neon.group4 lhsRowStart (rhsBaseIdx + n * K)
        group4Cols neon K N lhsRowStart rhsBaseIdx outputRowStart fuel (n + 4)
          ((((acc.set (outputRowStart + n) r.1).set
              (outputRowStart + n + 1) r.2.1).set
              (outputRowStart + n + 2) r.2.2.1).set
              (outputRowStart + n + 3) r.2.2.2)
      else
        (n, acc)

/-- One output row `m`: optionally process columns in groups of 4 with NEON,
then the remaining columns one by one. -/
def processRow (useNEON : Bool) (neon : NeonOracle) (lhs rhs : List ℚ)
    (K N lhsRowStart rhsBaseIdx outputRowStart : ℕ) (acc : List ℚ) : List ℚ :=
  let start :=
    if useNEON ∧ 4 ≤ N then
      group4Cols neon K N lhsRowStart rhsBaseIdx outputRowStart N 0 acc
    else
      (0, acc)
  remCols useNEON neon lhs rhs K lhsRowStart rhsBaseIdx outputRowStart
    start.1 start.2 (N - start.1)

/-- The row loop `for m := 0; m < lhsCrossSize; m++`, iterating on the count
of remaining rows. -/
def rowLoop (useNEON : Bool) (neon : NeonOracle) (lhs rhs : List ℚ)
    (K N lhsBaseIdx rhsBaseIdx outputBaseIdx : ℕ) :
    ℕ → List ℚ → ℕ → List ℚ
  | _, acc, 0 => acc
  | m, acc, c + 1 =>
      rowLoop useNEON neon lhs rhs K N lhsBaseIdx rhsBaseIdx outputBaseIdx
        (m + 1)
        (processRow useNEON neon lhs rhs K N
          (lhsBaseIdx + m * K) rhsBaseIdx (outputBaseIdx + m * N) acc)
        c

/-- The batch loop `for batchIdx := 0; batchIdx < batchSize; batchIdx++`,
with the strides `lhsBatchStride = M*K`, `rhsBatchStride = N*K`,
`outputBatchStride = M*N`. -/
def batchLoop (useNEON : Bool) (neon : NeonOracle) (lhs rhs : List ℚ)
    (K M N : ℕ) : ℕ → List ℚ → ℕ → List ℚ
  | _, acc, 0 => acc
  | b, acc, c + 1 =>
      batchLoop useNEON neon lhs rhs K M N (b + 1)
        (rowLoop useNEON neon lhs rhs K N
          (b * (M * K)) (b * (N * K)) (b * (M * N)) 0 acc M)
        c

/-- `execDotGeneralFastPathFloat32`: the float32 fast-path kernel.  `hasNEON`
is the package-level capability flag; `useNEON` additionally requires
`contractingSize ≥ 4`.  Returns the output flat data after all writes. -/
def execDotGeneralFastPathFloat32 (hasNEON : Bool) (neon : NeonOracle)
    (lhs rhs : Buffer) (params : DotGeneralNodeData) (output : Buffer) : List ℚ :=
  let useNEON : Bool := hasNEON && decide (4 ≤ params.contractingSize)
  batchLoop useNEON neon lhs.flat rhs.flat
    params.contractingSize params.lhsCrossSize params.rhsCrossSize
    0 output.flat params.batchSize

/-- `execDotGeneralFastPath`: gate on `canUseFastPath`; when it declines, the
advisory `false` is returned and the output flat data is returned untouched;
otherwise the float32 kernel runs and `true` is returned. -/
def execDotGeneralFastPath (hasNEON : Bool) (neon : NeonOracle)
    (lhs rhs : Buffer) (params : DotGeneralNodeData) (output : Buffer) :
    Bool × List ℚ :=
  if ¬ canUseFastPath lhs rhs params then
    (false, output.flat)
  else
    (true, execDotGeneralFastPathFloat32 hasNEON neon lhs rhs params output)

/-- The naive triple-nested-loop reference value for output position
`(b, m, n)`: `∑ k < K, lhs[b,m,k] * rhsColumn[b,n,k]` over the flat,
column-contiguous rhs layout the kernel reads. -/
def naiveDotGeneralElem (lhs rhs : List ℚ) (M N K b m n : ℕ) : ℚ :=
  ∑ k ∈ Finset.range K,
    lhs.getD (b * (M * K) + m * K + k) 0 * rhs.getD (b * (N * K) + n * K + k) 0

/-- `dotProduct_sme_asm` (ARM SME assembly, `dotgeneral_sme_arm64.s`): a
vector loop of fused multiply-adds plus a scalar remainder loop, together
accumulating `∑ i < n, a[i]*b[i]` from the two pointers; modelled, with float32
arithmetic idealised as exact, by the reference dot product over the offset
slices (`n ≤ 0` runs neither loop and yields the zeroed accumulator). -/
def dotProduct_sme_asm (a b : List ℚ) (aOff bOff : ℕ) (n : ℤ) : ℚ :=
  dotRange a b aOff bOff n.toNat

/-- `dotProduct_sme`: Go wrapper passing `&aSlice[aIdx]`, `&bSlice[bIdx]` to
the assembly (the `runtime.KeepAlive` calls have no observable effect). -/
def dotProduct_sme (aSlice bSlice : List ℚ) (aIdx bIdx : ℕ) (n : ℤ) : ℚ :=
  dotProduct_sme_asm aSlice bSlice aIdx bIdx n

/-- `dotProductInnerLoopSME`: reads the four pre-existing accumulators from
`outputFlat[outputIdx..outputIdx+3]`, then, only when `blockDim > 0`, adds to
each the corresponding dot product of the shared lhs block against the four
consecutive rhs blocks of length `blockDim`.  `blockDim` is a Go `int`
(modelled as `ℤ`); the derived offsets `rhsIdx + j*blockDim` are only used
under the `blockDim > 0` guard, where `Int.toNat` is exact. -/
def dotProductInnerLoopSME (lhsFlat rhsFlat outputFlat : List ℚ)
    (lhsIdx rhsIdx outputIdx : ℕ) (blockDim : ℤ) : ℚ × ℚ × ℚ × ℚ :=
  -- Initialize sums from current output values
  let sum0 := outputFlat.getD outputIdx 0
  let sum1 := outputFlat.getD (outputIdx + 1) 0
  let sum2 := outputFlat.getD (outputIdx + 2) 0
  let sum3 := outputFlat.getD (outputIdx + 3) 0
  -- Compute sum0: dot(lhs, rhs[0])
  let sum0 := if 0 < blockDim then
      sum0 + dotProduct_sme lhsFlat rhsFlat lhsIdx rhsIdx blockDim
    else sum0
  -- Compute sum1: dot(lhs, rhs[1])
  let rhsIdx1 := rhsIdx + blockDim.toNat
  let sum1 := if 0 < blockDim then
      sum1 + dotProduct_sme lhsFlat rhsFlat lhsIdx rhsIdx1 blockDim
    else sum1
  -- Compute sum2: dot(lhs, rhs[2])
  let rhsIdx2 := rhsIdx + 2 * blockDim.toNat
  let sum2 := if 0 < blockDim then
      sum2 + dotProduct_sme lhsFlat rhsFlat lhsIdx rhsIdx2 blockDim
    else sum2
  -- Compute sum3: dot(lhs, rhs[3])
  let rhsIdx3 := rhsIdx + 3 * blockDim.toNat
  let sum3 := if 0 < blockDim then
      sum3 + dotProduct_sme lhsFlat rhsFlat lhsIdx rhsIdx3 blockDim
    else sum3
  (sum0, sum1, sum2, sum3)

/-- State-passing rendering of `dotProductInnerLoopSME` for the frame
property: the three slice arguments are threaded through the call and
returned alongside the four sums.  Every statement of the Go function body
(and of `dotProduct_sme` and the assembly it calls) only reads the slices, so
the translation threads them unchanged. -/
def dotProductInnerLoopSMEFrame (lhsFlat rhsFlat outputFlat : List ℚ)
    (lhsIdx rhsIdx outputIdx : ℕ) (blockDim : ℤ) :
    (ℚ × ℚ × ℚ × ℚ) × List ℚ × List ℚ × List ℚ :=
  (dotProductInnerLoopSME lhsFlat rhsFlat outputFlat lhsIdx rhsIdx outputIdx
      blockDim,
    lhsFlat, rhsFlat, outputFlat)

/-- Operating systems distinguished by `runtime.GOOS` in the detectors. -/
inductive GOOS where
  | darwin
  | linux
  | other
  deriving DecidableEq, Repr

/-- Result of a `syscall.Sysctl` query: `none` when the call errors,
otherwise the returned bytes. -/
def SysctlResult : Type := Option (List ℕ)

/-- `detectBF16NEON` from the darwin/arm64 detection file: BF16 NEON
instructions execute but produce wrong results on Apple M4, so the function
unconditionally returns `false`, ignoring what the hardware capability query
(`featBF16` sysctl) would report. -/
def detectBF16NEON_darwin (featBF16 : SysctlResult) : Bool :=
  -- BF16 NEON instructions produce wrong results on Apple M4; disabled.
  false

/-- `detectBF16NEON` from the arm64 detection file variant that branches on
`runtime.GOOS`: `false` on darwin (capability bit unreliable), `false`
elsewhere (conservative). -/
def detectBF16NEON_arm64 (goos : GOOS) (featBF16 : SysctlResult) : Bool :=
  if goos = GOOS.darwin then
    false
  else
    false

/-- A second, conflicting `detectBF16NEON` variant also present in the
sources (`dotgeneral_fp16_detect_arm64.go`): on darwin it trusts the
`hw.optional.arm.FEAT_BF16` sysctl bit.  It cannot coexist with the
darwin-specific variant in one build (duplicate symbol under
`darwin && arm64`); the spec documents the conservative forced-off
behaviour, matching the variants above. -/
def detectBF16NEON_sysctlVariant (goos : GOOS) (featBF16 : SysctlResult) : Bool :=
  if goos = GOOS.darwin then
    match featBF16 with
    | some val => if 0 < val.length ∧ val.getD 0 0 ≠ 0 then true else false
    | none => false
  else
    false

/-- A concrete NEON oracle used only to instantiate theorems whose statements
quantify over the (irrelevant) NEON primitives. -/
def neonZero : NeonOracle :=
  ⟨fun _ _ => 0, fun _ _ => (0, 0, 0, 0)⟩

/-- The four canonical positional patterns of the shape classifier, stated as
the spec describes them: exact ranks, exact contracting-axis positions, exact
batch-axis positions. -/
def StandardMatmulPattern (lhsShape rhsShape : Shape)
    (lc rc lb rb : List ℤ) : Prop :=
  (lhsShape.rank = 2 ∧ rhsShape.rank = 2 ∧
    lc = [1] ∧ rc = [0] ∧ lb = [] ∧ rb = []) ∨
  (lhsShape.rank = 2 ∧ rhsShape.rank = 1 ∧
    lc = [1] ∧ rc = [0] ∧ lb = [] ∧ rb = []) ∨
  (lhsShape.rank = 3 ∧ rhsShape.rank = 3 ∧
    lb = [0] ∧ rb = [0] ∧ lc = [2] ∧ rc = [1]) ∨
  (lhsShape.rank = 4 ∧ rhsShape.rank = 4 ∧
    lb = [0, 1] ∧ rb = [0, 1] ∧ lc = [3] ∧ rc = [2])

/-- 128×128 float32 matrix of all ones. -/
def ones128 : Buffer := ⟨⟨DType.Float32, [128, 128]⟩, List.replicate (128 * 128) 1⟩

/-- 128×128 float32 matrix of all twos. -/
def twos128 : Buffer := ⟨⟨DType.Float32, [128, 128]⟩, List.replicate (128 * 128) 2⟩

/-- 128×128 float32 output buffer, initially zero. -/
def zeros128 : Buffer := ⟨⟨DType.Float32, [128, 128]⟩, List.replicate (128 * 128) 0⟩

/-- Contraction metadata of the plain 128×128 × 128×128 matmul. -/
def params128 : DotGeneralNodeData := ⟨[1], [0], [], [], 1, 128, 128, 128⟩

/-- An 8×4 float32 operand. -/
def lhs84 : Buffer := ⟨⟨DType.Float32, [8, 4]⟩, List.replicate 32 0⟩

/-- A 4×6 float32 operand. -/
def rhs46 : Buffer := ⟨⟨DType.Float32, [4, 6]⟩, List.replicate 24 0⟩

/-- Canonical contraction metadata for the [8,4] × [4,6] matmul:
contracting lhs axis 1 against rhs axis 0, no batch axes. -/
def params84 : DotGeneralNodeData := ⟨[1], [0], [], [], 1, 8, 6, 4⟩

/-- The same [8,4] × [4,6] shapes with a transposed, non-canonical-order
layout: the contraction is declared on lhs axis 0 and rhs axis 1. -/
def params84T : DotGeneralNodeData := ⟨[0], [1], [], [], 1, 8, 6, 4⟩

/-- An 8×4 float64 operand: same canonical matmul shape, unsupported dtype. -/
def lhs84f64 : Buffer := ⟨⟨DType.Float64, [8, 4]⟩, List.replicate 32 0⟩

/-- A rank-1 float32 operand of 4 elements. -/
def vec4 : Buffer := ⟨⟨DType.Float32, [4]⟩, List.replicate 4 1⟩

/-- Vector·vector contraction metadata (both operands rank 1): not one of the
canonical patterns. -/
def paramsVec : DotGeneralNodeData := ⟨[0], [0], [], [], 1, 1, 1, 4⟩

/-! ### Lemmas about the reference dot product and the scalar inner loop -/

lemma dotRange_succ (a b : List ℚ) (i j n : ℕ) :
    dotRange a b i j (n + 1) =
      a.getD i 0 * b.getD j 0 + dotRange a b (i + 1) (j + 1) n := by
  unfold dotRange
  rw [Finset.sum_range_succ', Nat.add_zero, Nat.add_zero, add_comm]
  congr 1
  apply Finset.sum_congr rfl
  intro k _
  have h1 : i + (k + 1) = i + 1 + k := by omega
  have h2 : j + (k + 1) = j + 1 + k := by omega
  rw [h1, h2]

lemma dotRange_add (a b : List ℚ) (i j p q : ℕ) :
    dotRange a b i j (p + q) =
      dotRange a b i j p + dotRange a b (i + p) (j + p) q := by
  unfold dotRange
  rw [Finset.sum_range_add]
  congr 1
  apply Finset.sum_congr rfl
  intro k _
  have h1 : i + (p + k) = i + p + k := by omega
  have h2 : j + (p + k) = j + p + k := by omega
  rw [h1, h2]

lemma dotRange_comm (a b : List ℚ) (i j n : ℕ) :
    dotRange a b i j n = dotRange b a j i n := by
  unfold dotRange
  apply Finset.sum_congr rfl
  intro k _
  ring

lemma scalarRem_eq (lhs rhs : List ℚ) :
    ∀ (r i j : ℕ) (s : ℚ),
      scalarRem lhs rhs i j s r = s + dotRange lhs rhs i j r := by
  intro r
  induction r with
  | zero => intro i j s; simp [scalarRem, dotRange]
  | succ r ih =>
      intro i j s
      rw [scalarRem, ih, dotRange_succ]
      ring

lemma scalarDotAux_eq (lhs rhs : List ℚ) :
    ∀ (rem i j : ℕ) (s : ℚ),
      scalarDotAux lhs rhs i j s rem = s + dotRange lhs rhs i j rem := by
  intro rem
  induction rem using Nat.strong_induction_on with
  | _ rem ih =>
      intro i j s
      rw [scalarDotAux]
      split_ifs with h
      · rw [ih (rem - 8) (by omega)]
        have hsplit : rem = 8 + (rem - 8) := by omega
        conv_rhs => rw [hsplit]
        rw [dotRange_add]
        have h8 : dotRange lhs rhs i j 8 =
            lhs.getD i 0 * rhs.getD j 0 +
            lhs.getD (i + 1) 0 * rhs.getD (j + 1) 0 +
            lhs.getD (i + 2) 0 * rhs.getD (j + 2) 0 +
            lhs.getD (i + 3) 0 * rhs.getD (j + 3) 0 +
            lhs.getD (i + 4) 0 * rhs.getD (j + 4) 0 +
            lhs.getD (i + 5) 0 * rhs.getD (j + 5) 0 +
            lhs.getD (i + 6) 0 * rhs.getD (j + 6) 0 +
            lhs.getD (i + 7) 0 * rhs.getD (j + 7) 0 := by
          show (∑ k ∈ Finset.range 8, _) = _
          rw [Finset.sum_range_succ, Finset.sum_range_succ,
            Finset.sum_range_succ, Finset.sum_range_succ,
            Finset.sum_range_succ, Finset.sum_range_succ,
            Finset.sum_range_succ, Finset.sum_range_one]
          simp only [Nat.add_zero]
        rw [h8]
        ring
      · exact scalarRem_eq lhs rhs rem i j s

lemma scalarDot_eq_dotRange (lhs rhs : List ℚ) (i j K : ℕ) :
    scalarDot lhs rhs i j K = dotRange lhs rhs i j K := by
  unfold scalarDot
  rw [scalarDotAux_eq]
  ring

/-! ### Lemmas about the kernel loops (scalar tier, `useNEON = false`) -/

lemma getD_set_ne (l : List ℚ) (i j : ℕ) (a : ℚ) (h : i ≠ j) :
    (l.set i a).getD j 0 = l.getD j 0 := by
  simp [List.getD_eq_getElem?_getD, List.getElem?_set_ne h]

lemma getD_set_eq (l : List ℚ) (i : ℕ) (a : ℚ) (h : i < l.length) :
    (l.set i a).getD i 0 = a := by
  simp [List.getD_eq_getElem?_getD, List.getElem?_set_eq_of_lt a h]

lemma remCols_length (u : Bool) (neon : NeonOracle) (lhs rhs : List ℚ)
    (K ls rb ors : ℕ) :
    ∀ (c n : ℕ) (acc : List ℚ),
      (remCols u neon lhs rhs K ls rb ors n acc c).length = acc.length := by
  intro c
  induction c with
  | zero => intro n acc; rfl
  | succ c ih =>
      intro n acc
      rw [remCols, ih]
      exact List.length_set acc _ _

lemma remCols_getD_lt (u : Bool) (neon : NeonOracle) (lhs rhs : List ℚ)
    (K ls rb ors : ℕ) :
    ∀ (c n : ℕ) (acc : List ℚ) (p : ℕ), p < ors + n →
      (remCols u neon lhs rhs K ls rb ors n acc c).getD p 0 = acc.getD p 0 := by
  intro c
  induction c with
  | zero => intro n acc p _; rfl
  | succ c ih =>
      intro n acc p hp
      rw [remCols, ih (n + 1) _ p (by omega)]
      exact getD_set_ne acc _ p _ (by omega)

lemma remCols_getD_hit (u : Bool) (neon : NeonOracle) (lhs rhs : List ℚ)
    (K ls rb ors : ℕ) :
    ∀ (c n : ℕ) (acc : List ℚ) (q : ℕ), q < c → ors + n + q < acc.length →
      (remCols u neon lhs rhs K ls rb ors n acc c).getD (ors + (n + q)) 0 =
        columnValue u neon lhs rhs K ls rb (n + q) := by
  intro c
  induction c with
  | zero => intro n acc q hq _; omega
  | succ c ih =>
      intro n acc q hq hlen
      rw [remCols]
      rcases Nat.eq_zero_or_pos q with hq0 | hqpos
      · subst hq0
        rw [remCols_getD_lt u neon lhs rhs K ls rb ors c (n + 1) _ _ (by omega)]
        rw [Nat.add_zero]
        exact getD_set_eq acc _ _ (by omega)
      · obtain ⟨q', rfl⟩ : ∃ q', q = q' + 1 := ⟨q - 1, by omega⟩
        have h1 : n + (q' + 1) = (n + 1) + q' := by omega
        rw [h1]
        rw [ih (n + 1) _ q' (by omega)
          (by rw [List.length_set]; omega)]

lemma processRow_false_eq (neon : NeonOracle) (lhs rhs : List ℚ)
    (K N ls rb ors : ℕ) (acc : List ℚ) :
    processRow false neon lhs rhs K N ls rb ors acc =
      remCols false neon lhs rhs K ls rb ors 0 acc N := by
  simp [processRow]

lemma processRow_false_length (neon : NeonOracle) (lhs rhs : List ℚ)
    (K N ls rb ors : ℕ) (acc : List ℚ) :
    (processRow false neon lhs rhs K N ls rb ors acc).length = acc.length := by
  rw [processRow_false_eq]
  exact remCols_length false neon lhs rhs K ls rb ors N 0 acc

lemma rowLoop_length (neon : NeonOracle) (lhs rhs : List ℚ)
    (K N lb rb ob : ℕ) :
    ∀ (c m : ℕ) (acc : List ℚ),
      (rowLoop false neon lhs rhs K N lb rb ob m acc c).length = acc.length := by
  intro c
  induction c with
  | zero => intro m acc; rfl
  | succ c ih =>
      intro m acc
      rw [rowLoop, ih]
      exact processRow_false_length neon lhs rhs K N _ rb _ acc

lemma rowLoop_getD_lt (neon : NeonOracle) (lhs rhs : List ℚ)
    (K N lb rb ob : ℕ) :
    ∀ (c m : ℕ) (acc : List ℚ) (p : ℕ), p < ob + m * N →
      (rowLoop false neon lhs rhs K N lb rb ob m acc c).getD p 0 =
        acc.getD p 0 := by
  intro c
  induction c with
  | zero => intro m acc p _; rfl
  | succ c ih =>
      intro m acc p hp
      rw [rowLoop, ih (m + 1) _ p (by nlinarith [Nat.le_add_right (m * N) N]),
        processRow_false_eq,
        remCols_getD_lt false neon lhs rhs K _ rb _ N 0 acc p (by omega)]

lemma rowLoop_getD_hit (neon : NeonOracle) (lhs rhs : List ℚ)
    (K N lb rb ob : ℕ) :
    ∀ (c m : ℕ) (acc : List ℚ) (r q : ℕ), r < c → q < N →
      ob + (m + r) * N + q < acc.length →
      (rowLoop false neon lhs rhs K N lb rb ob m acc c).getD
          (ob + (m + r) * N + q) 0 =
        columnValue false neon lhs rhs K (lb + (m + r) * K) rb q := by
  intro c
  induction c with
  | zero => intro m acc r q hr _ _; omega
  | succ c ih =>
      intro m acc r q hr hq hlen
      rw [rowLoop]
      rcases Nat.eq_zero_or_pos r with hr0 | hrpos
      · subst hr0
        simp only [Nat.add_zero] at hlen ⊢
        rw [rowLoop_getD_lt neon lhs rhs K N lb rb ob c (m + 1) _ _
          (by nlinarith)]
        rw [processRow_false_eq]
        have hpos : ob + m * N + q = (ob + m * N) + (0 + q) := by omega
        rw [hpos]
        rw [remCols_getD_hit false neon lhs rhs K _ rb _ N 0 acc q hq
          (by omega)]
        rw [Nat.zero_add]
      · obtain ⟨r', rfl⟩ : ∃ r', r = r' + 1 := ⟨r - 1, by omega⟩
        have h1 : m + (r' + 1) = (m + 1) + r' := by omega
        rw [h1] at hlen ⊢
        rw [ih (m + 1) _ r' q (by omega) hq
          (by rw [processRow_false_length]; exact hlen)]

lemma batchLoop_length (neon : NeonOracle) (lhs rhs : List ℚ) (K M N : ℕ) :
    ∀ (c b : ℕ) (acc : List ℚ),
      (batchLoop false neon lhs rhs K M N b acc c).length = acc.length := by
  intro c
  induction c with
  | zero => intro b acc; rfl
  | succ c ih =>
      intro b acc
      rw [batchLoop, ih]
      exact rowLoop_length neon lhs rhs K N _ _ _ M 0 acc

lemma batchLoop_getD_lt (neon : NeonOracle) (lhs rhs : List ℚ) (K M N : ℕ) :
    ∀ (c b : ℕ) (acc : List ℚ) (p : ℕ), p < b * (M * N) →
      (batchLoop false neon lhs rhs K M N b acc c).getD p 0 = acc.getD p 0 := by
  intro c
  induction c with
  | zero => intro b acc p _; rfl
  | succ c ih =>
      intro b acc p hp
      rw [batchLoop, ih (b + 1) _ p (by nlinarith [Nat.le_add_right (b * (M * N)) (M * N)]),
        rowLoop_getD_lt neon lhs rhs K N _ _ _ M 0 acc p (by omega)]

lemma batchLoop_getD_hit (neon : NeonOracle) (lhs rhs : List ℚ) (K M N : ℕ) :
    ∀ (c b : ℕ) (acc : List ℚ) (s m n : ℕ), s < c → m < M → n < N →
      (b + s) * (M * N) + m * N + n < acc.length →
      (batchLoop false neon lhs rhs K M N b acc c).getD
          ((b + s) * (M * N) + m * N + n) 0 =
        columnValue false neon lhs rhs K ((b + s) * (M * K) + m * K)
          ((b + s) * (N * K)) n := by
  intro c
  induction c with
  | zero => intro b acc s m n hs _ _ _; omega
  | succ c ih =>
      intro b acc s m n hs hm hn hlen
      rw [batchLoop]
      rcases Nat.eq_zero_or_pos s with hs0 | hspos
      · subst hs0
        simp only [Nat.add_zero] at hlen ⊢
        have hlt : b * (M * N) + m * N + n < (b + 1) * (M * N) := by
          have h1 : m * N + n < M * N := by nlinarith
          nlinarith
        rw [batchLoop_getD_lt neon lhs rhs K M N c (b + 1) _ _ hlt]
        have hpos : b * (M * N) + m * N + n = b * (M * N) + (0 + m) * N + n := by
          rw [Nat.zero_add]
        rw [hpos]
        rw [rowLoop_getD_hit neon lhs rhs K N (b * (M * K)) (b * (N * K))
          (b * (M * N)) M 0 acc m n hm hn
          (by simp only [Nat.zero_add]; exact hlen)]
        rw [Nat.zero_add]
      · obtain ⟨s', rfl⟩ : ∃ s', s = s' + 1 := ⟨s - 1, by omega⟩
        have h1 : b + (s' + 1) = (b + 1) + s' := by omega
        rw [h1] at hlen ⊢
        rw [ih (b + 1) _ s' m n (by omega) hm hn
          (by rw [rowLoop_length]; exact hlen)]

lemma getD_replicate (n i : ℕ) (a : ℚ) (h : i < n) :
    (List.replicate n a).getD i 0 = a := by
  simp [List.getD_eq_getElem?_getD, List.getElem?_replicate, h]

lemma mul_add_lt {m M k K : ℕ} (hm : m < M) (hk : k < K) : m * K + k < M * K := by
  nlinarith

/-- With NEON unavailable, the fast-path kernel leaves at every in-range
output position `(b, m, n)` the scalar unrolled dot product, which equals the
naive reference value. -/
lemma execFastPathFloat32_scalar_getD (neon : NeonOracle)
    (lhs rhs output : Buffer) (params : DotGeneralNodeData) (b m n : ℕ)
    (hb : b < params.batchSize) (hm : m < params.lhsCrossSize)
    (hn : n < params.rhsCrossSize)
    (hlen : b * (params.lhsCrossSize * params.rhsCrossSize) +
      m * params.rhsCrossSize + n < output.flat.length) :
    (execDotGeneralFastPathFloat32 false neon lhs rhs params output).getD
        (b * (params.lhsCrossSize * params.rhsCrossSize) +
          m * params.rhsCrossSize + n) 0 =
      naiveDotGeneralElem lhs.flat rhs.flat params.lhsCrossSize
        params.rhsCrossSize params.contractingSize b m n := by
  set K := params.contractingSize
  set M := params.lhsCrossSize
  set N := params.rhsCrossSize
  have hexec : execDotGeneralFastPathFloat32 false neon lhs rhs params output =
      batchLoop false neon lhs.flat rhs.flat K M N 0 output.flat
        params.batchSize := by
    simp [execDotGeneralFastPathFloat32]
  rw [hexec]
  have hb0 : b * (M * N) + m * N + n = (0 + b) * (M * N) + m * N + n := by
    rw [Nat.zero_add]
  rw [hb0]
  rw [batchLoop_getD_hit neon lhs.flat rhs.flat K M N params.batchSize 0
    output.flat b m n hb hm hn (by simpa using hlen)]
  simp only [Nat.zero_add]
  rw [columnValue]
  simp only [Bool.false_eq_true, if_false]
  rw [scalarDot_eq_dotRange]
  rfl

lemma naive_ones_twos (m n : ℕ) (hm : m < 128) (hn : n < 128) :
    naiveDotGeneralElem ones128.flat twos128.flat 128 128 128 0 m n = 256 := by
  unfold naiveDotGeneralElem
  have hterm : ∀ k ∈ Finset.range 128,
      ones128.flat.getD (0 * (128 * 128) + m * 128 + k) 0 *
        twos128.flat.getD (0 * (128 * 128) + n * 128 + k) 0 = 2 := by
    intro k hk
    simp only [Finset.mem_range] at hk
    simp only [Nat.zero_mul, Nat.zero_add]
    rw [show ones128.flat = List.replicate (128 * 128) 1 from rfl,
      show twos128.flat = List.replicate (128 * 128) 2 from rfl]
    rw [getD_replicate _ _ _ (by nlinarith), getD_replicate _ _ _ (by nlinarith)]
    norm_num
  rw [Finset.sum_congr rfl hterm]
  simp
  norm_num

/-- C1: with vector-extension acceleration unavailable, the float32 fast-path
kernel writes at every output position `(b, m, n)` the sum over `k` of
`lhs[b,m,k] * rhsColumn[b,n,k]`, equal to the naive triple-nested-loop
reference; and for two 128×128 matrices of all ones times all twos every
output element equals exactly 256. -/
theorem C1_fast_path_scalar_matches_naive :
    (∀ (neon : NeonOracle) (lhs rhs output : Buffer)
        (params : DotGeneralNodeData) (b m n : ℕ),
      b < params.batchSize → m < params.lhsCrossSize → n < params.rhsCrossSize →
      b * (params.lhsCrossSize * params.rhsCrossSize) +
          m * params.rhsCrossSize + n < output.flat.length →
      (execDotGeneralFastPathFloat32 false neon lhs rhs params output).getD
          (b * (params.lhsCrossSize * params.rhsCrossSize) +
            m * params.rhsCrossSize + n) 0 =
        naiveDotGeneralElem lhs.flat rhs.flat params.lhsCrossSize
          params.rhsCrossSize params.contractingSize b m n) ∧
    (∀ (neon : NeonOracle) (m n : ℕ), m < 128 → n < 128 →
      (execDotGeneralFastPathFloat32 false neon ones128 twos128 params128
          zeros128).getD (m * 128 + n) 0 = 256) := by
  constructor
  · intro neon lhs rhs output params b m n hb hm hn hlen
    exact execFastPathFloat32_scalar_getD neon lhs rhs output params b m n
      hb hm hn hlen
  · intro neon m n hm hn
    have hpos : m * 128 + n = 0 * (128 * 128) + m * 128 + n := by omega
    rw [hpos]
    have hlen : 0 * (128 * 128) + m * 128 + n <
        (zeros128).flat.length := by
      have : m * 128 + n < 128 * 128 := by nlinarith
      simp only [zeros128, List.length_replicate]
      omega
    have h := execFastPathFloat32_scalar_getD neon ones128 twos128 zeros128
      params128 0 m n (by norm_num [params128]) (by simpa [params128] using hm)
      (by simpa [params128] using hn) (by simpa [params128] using hlen)
    simp only [params128] at h ⊢
    rw [h]
    exact naive_ones_twos m n hm hn

/-- C1 witness: the `(0,0)` entry of the 128×128 all-ones × all-twos product
under the scalar tier is exactly 256. -/
theorem C1_fast_path_scalar_matches_naive_witness :
    (0 : ℕ) < 128 ∧
    (execDotGeneralFastPathFloat32 false neonZero ones128 twos128 params128
        zeros128).getD 0 0 = 256 := by
  refine ⟨by norm_num, ?_⟩
  have h := C1_fast_path_scalar_matches_naive.2 neonZero 0 0
    (by norm_num) (by norm_num)
  simpa using h

/-- C9: the scalar unrolled-by-8 dot-product accumulation is invariant to
which operand is lhs and which is rhs. -/
theorem C9_scalar_dot_commutes (a b : List ℚ) (i j n : ℕ) :
    scalarDot a b i j n = scalarDot b a j i n := by
  rw [scalarDot_eq_dotRange, scalarDot_eq_dotRange, dotRange_comm]

/-! ### Claims about the shape classifier and the fast-path gate -/

lemma eq_singleton_of_length_getD (l : List ℤ) (v : ℤ)
    (hl : l.length = 1) (hv : l.getD 0 0 = v) : l = [v] := by
  match l with
  | [] => simp at hl
  | [a] => simp [List.getD] at hv; simp [hv]
  | a :: b :: t => simp at hl

lemma eq_pair_of_length_getD (l : List ℤ) (v w : ℤ)
    (hl : l.length = 2) (hv : l.getD 0 0 = v) (hw : l.getD 1 0 = w) :
    l = [v, w] := by
  match l with
  | [] => simp at hl
  | [a] => simp at hl
  | [a, b] =>
      simp [List.getD] at hv hw
      simp [hv, hw]
  | a :: b :: c :: t => simp at hl

lemma eq_nil_of_length_zero (l : List ℤ) (hl : l.length = 0) : l = [] :=
  List.length_eq_zero.mp hl

/-- C5: `isStandardMatmul` returns `true` exactly on the four canonical
positional patterns (matrix×matrix, matrix×vector, batched, double-batched)
and `false` on every other rank or axis configuration. -/
theorem C5_isStandardMatmul_iff (lhsShape rhsShape : Shape)
    (lc rc lb rb : List ℤ) :
    isStandardMatmul lhsShape rhsShape lc rc lb rb = true ↔
      StandardMatmulPattern lhsShape rhsShape lc rc lb rb := by
  unfold isStandardMatmul StandardMatmulPattern
  constructor
  · intro h
    split_ifs at h with h1 h2 h3 h4
    · obtain ⟨e1, e2, e3, e4, e5, e6, e7, e8⟩ := h1
      exact Or.inl ⟨e1, e2, eq_singleton_of_length_getD lc 1 e3 e7,
        eq_singleton_of_length_getD rc 0 e4 e8,
        eq_nil_of_length_zero lb e5, eq_nil_of_length_zero rb e6⟩
    · obtain ⟨e1, e2, e3, e4, e5, e6, e7, e8⟩ := h2
      exact Or.inr (Or.inl ⟨e1, e2, eq_singleton_of_length_getD lc 1 e3 e7,
        eq_singleton_of_length_getD rc 0 e4 e8,
        eq_nil_of_length_zero lb e5, eq_nil_of_length_zero rb e6⟩)
    · obtain ⟨e1, e2, e3, e4, e5, e6, e7, e8, e9, e10⟩ := h3
      exact Or.inr (Or.inr (Or.inl ⟨e1, e2,
        eq_singleton_of_length_getD lb 0 e5 e7,
        eq_singleton_of_length_getD rb 0 e6 e8,
        eq_singleton_of_length_getD lc 2 e3 e9,
        eq_singleton_of_length_getD rc 1 e4 e10⟩))
    · obtain ⟨e1, e2, e3, e4, e5, e6, e7, e8, e9, e10, e11, e12⟩ := h4
      exact Or.inr (Or.inr (Or.inr ⟨e1, e2,
        eq_pair_of_length_getD lb 0 1 e5 e7 e8,
        eq_pair_of_length_getD rb 0 1 e6 e9 e10,
        eq_singleton_of_length_getD lc 3 e3 e11,
        eq_singleton_of_length_getD rc 2 e4 e12⟩))
  · intro h
    split_ifs with h1 h2 h3 h4
    · rfl
    · rfl
    · rfl
    · rfl
    · exfalso
      rcases h with ⟨e1, e2, rfl, rfl, rfl, rfl⟩ |
        ⟨e1, e2, rfl, rfl, rfl, rfl⟩ |
        ⟨e1, e2, rfl, rfl, rfl, rfl⟩ |
        ⟨e1, e2, rfl, rfl, rfl, rfl⟩
      · exact h1 ⟨e1, e2, rfl, rfl, rfl, rfl, rfl, rfl⟩
      · exact h2 ⟨e1, e2, rfl, rfl, rfl, rfl, rfl, rfl⟩
      · exact h3 ⟨e1, e2, rfl, rfl, rfl, rfl, rfl, rfl, rfl, rfl⟩
      · exact h4 ⟨e1, e2, rfl, rfl, rfl, rfl, rfl, rfl, rfl, rfl, rfl, rfl⟩

/-- C2 counterexample: the claim that the `isMemoryContiguous` check is part
of fast-path classification is false: the canonical [8,4]×[4,6] matmul
matches the positional pattern, its rhs operand fails the expected-order
identity-permutation check, and `canUseFastPath` nevertheless accepts it. -/
theorem C2_counterexample :
    ¬ (∀ (lhs rhs : Buffer) (params : DotGeneralNodeData),
      isStandardMatmul lhs.shape rhs.shape
          params.lhsContractingAxes params.rhsContractingAxes
          params.lhsBatchAxes params.rhsBatchAxes = true →
      (isMemoryContiguous lhs.shape params.lhsContractingAxes
          params.lhsBatchAxes = false ∨
        isMemoryContiguous rhs.shape params.rhsContractingAxes
          params.rhsBatchAxes = false) →
      canUseFastPath lhs rhs params = false) := by
  intro hclaim
  have h1 : isStandardMatmul lhs84.shape rhs46.shape
      params84.lhsContractingAxes params84.rhsContractingAxes
      params84.lhsBatchAxes params84.rhsBatchAxes = true := by decide
  have h2 : isMemoryContiguous rhs46.shape params84.rhsContractingAxes
      params84.rhsBatchAxes = false := by decide
  have h3 : canUseFastPath lhs84 rhs46 params84 = true := by decide
  have := hclaim lhs84 rhs46 params84 h1 (Or.inr h2)
  rw [h3] at this
  exact Bool.noConfusion this

/-- C2 (amended): `canUseFastPath` decides eligibility from the dtype gate and
the positional pattern check alone — `isMemoryContiguous` is not consulted —
and the non-canonical axis order is rejected by the positional check: the
contiguous canonical [8,4]×[4,6] pair is accepted, while the same shapes with
the transposed contraction (lhs axis 0 / rhs axis 1) are rejected, forcing
the general path. -/
theorem C2_fast_path_classification :
    (∀ (lhs rhs : Buffer) (params : DotGeneralNodeData),
      canUseFastPath lhs rhs params =
        (decide (lhs.shape.dtype = DType.Float32) &&
          isStandardMatmul lhs.shape rhs.shape
            params.lhsContractingAxes params.rhsContractingAxes
            params.lhsBatchAxes params.rhsBatchAxes)) ∧
    canUseFastPath lhs84 rhs46 params84 = true ∧
    canUseFastPath lhs84 rhs46 params84T = false := by
  refine ⟨?_, by decide, by decide⟩
  intro lhs rhs params
  by_cases hd : lhs.shape.dtype = DType.Float32
  · by_cases hs : isStandardMatmul lhs.shape rhs.shape
        params.lhsContractingAxes params.rhsContractingAxes
        params.lhsBatchAxes params.rhsBatchAxes = true
    · simp [canUseFastPath, hd, hs]
    · have hs' : isStandardMatmul lhs.shape rhs.shape
          params.lhsContractingAxes params.rhsContractingAxes
          params.lhsBatchAxes params.rhsBatchAxes = false := by
        revert hs
        cases isStandardMatmul lhs.shape rhs.shape
          params.lhsContractingAxes params.rhsContractingAxes
          params.lhsBatchAxes params.rhsBatchAxes <;> simp
      simp [canUseFastPath, hd, hs']
  · simp [canUseFastPath, hd]

/-- C3: any DotGeneral whose lhs dtype is not float32 is refused by the fast
path: `canUseFastPath` is `false` and `execDotGeneralFastPath` returns the
advisory `false` with the output untouched, for every shape configuration. -/
theorem C3_non_float32_always_general_path (hasNEON : Bool)
    (neon : NeonOracle) (lhs rhs output : Buffer)
    (params : DotGeneralNodeData) (h : lhs.shape.dtype ≠ DType.Float32) :
    canUseFastPath lhs rhs params = false ∧
    execDotGeneralFastPath hasNEON neon lhs rhs params output =
      (false, output.flat) := by
  have hc : canUseFastPath lhs rhs params = false := by
    simp [canUseFastPath, h]
  exact ⟨hc, by simp [execDotGeneralFastPath, hc]⟩

/-- C3 witness: a float64 [8,4]×[4,6] matmul — shapes match the canonical
pattern, yet the dtype gate refuses the fast path. -/
theorem C3_non_float32_always_general_path_witness :
    lhs84f64.shape.dtype ≠ DType.Float32 ∧
    (canUseFastPath lhs84f64 rhs46 params84 = false ∧
      execDotGeneralFastPath false neonZero lhs84f64 rhs46 params84 rhs46 =
        (false, rhs46.flat)) :=
  ⟨by decide,
    C3_non_float32_always_general_path false neonZero lhs84f64 rhs46 rhs46
      params84 (by decide)⟩

/-- C4: whenever `execDotGeneralFastPath` declines an operation, it returns
the advisory `false` — no error — and the output flat data is exactly the
data it was handed, with no element written. -/
theorem C4_decline_is_advisory_and_frame (hasNEON : Bool) (neon : NeonOracle)
    (lhs rhs output : Buffer) (params : DotGeneralNodeData)
    (h : canUseFastPath lhs rhs params = false) :
    execDotGeneralFastPath hasNEON neon lhs rhs params output =
      (false, output.flat) := by
  simp [execDotGeneralFastPath, h]

/-- C4 witness: a float32 vector·vector contraction — a shape-classification
failure — declines and leaves the output untouched. -/
theorem C4_decline_is_advisory_and_frame_witness :
    canUseFastPath vec4 vec4 paramsVec = false ∧
    execDotGeneralFastPath false neonZero vec4 vec4 paramsVec lhs84 =
      (false, lhs84.flat) :=
  ⟨by decide,
    C4_decline_is_advisory_and_frame false neonZero vec4 vec4 lhs84 paramsVec
      (by decide)⟩

/-! ### Claims about the SME inner-loop primitive and capability detection -/

/-- C6: for positive `blockDim`, `dotProductInnerLoopSME` returns, for each
`j = 0,1,2,3`, the pre-existing accumulator `outputFlat[outputIdx+j]` plus the
dot product of the shared lhs block against the `j`-th consecutive rhs block —
i.e. the grouped call equals four single `dotProduct_sme` calls, each equal to
the reference sum `∑ k < blockDim, lhs[lhsIdx+k] * rhs[rhsIdx+j·blockDim+k]`. -/
theorem C6_sme_group_equals_four_singles
    (lhsFlat rhsFlat outputFlat : List ℚ) (lhsIdx rhsIdx outputIdx : ℕ)
    (blockDim : ℤ) (h : 0 < blockDim) :
    dotProductInnerLoopSME lhsFlat rhsFlat outputFlat lhsIdx rhsIdx outputIdx
        blockDim =
      (outputFlat.getD outputIdx 0 +
          dotProduct_sme lhsFlat rhsFlat lhsIdx rhsIdx blockDim,
        outputFlat.getD (outputIdx + 1) 0 +
          dotProduct_sme lhsFlat rhsFlat lhsIdx (rhsIdx + blockDim.toNat)
            blockDim,
        outputFlat.getD (outputIdx + 2) 0 +
          dotProduct_sme lhsFlat rhsFlat lhsIdx (rhsIdx + 2 * blockDim.toNat)
            blockDim,
        outputFlat.getD (outputIdx + 3) 0 +
          dotProduct_sme lhsFlat rhsFlat lhsIdx (rhsIdx + 3 * blockDim.toNat)
            blockDim) ∧
    (∀ j : ℕ, dotProduct_sme lhsFlat rhsFlat lhsIdx
        (rhsIdx + j * blockDim.toNat) blockDim =
      dotRange lhsFlat rhsFlat lhsIdx (rhsIdx + j * blockDim.toNat)
        blockDim.toNat) := by
  constructor
  · simp [dotProductInnerLoopSME, h]
  · intro j
    rfl

/-- C6 witness: a concrete grouped call with `blockDim = 2`. -/
theorem C6_sme_group_equals_four_singles_witness :
    (0 : ℤ) < 2 ∧
    (dotProductInnerLoopSME [1, 2] [3, 4, 5, 6, 7, 8, 9, 10]
        [100, 200, 300, 400] 0 0 0 2 =
      (([100, 200, 300, 400] : List ℚ).getD 0 0 +
          dotProduct_sme [1, 2] [3, 4, 5, 6, 7, 8, 9, 10] 0 0 2,
        ([100, 200, 300, 400] : List ℚ).getD (0 + 1) 0 +
          dotProduct_sme [1, 2] [3, 4, 5, 6, 7, 8, 9, 10] 0 (0 + (2 : ℤ).toNat) 2,
        ([100, 200, 300, 400] : List ℚ).getD (0 + 2) 0 +
          dotProduct_sme [1, 2] [3, 4, 5, 6, 7, 8, 9, 10] 0
            (0 + 2 * (2 : ℤ).toNat) 2,
        ([100, 200, 300, 400] : List ℚ).getD (0 + 3) 0 +
          dotProduct_sme [1, 2] [3, 4, 5, 6, 7, 8, 9, 10] 0
            (0 + 3 * (2 : ℤ).toNat) 2) ∧
      (∀ j : ℕ, dotProduct_sme [1, 2] [3, 4, 5, 6, 7, 8, 9, 10] 0
          (0 + j * (2 : ℤ).toNat) 2 =
        dotRange [1, 2] [3, 4, 5, 6, 7, 8, 9, 10] 0 (0 + j * (2 : ℤ).toNat)
          (2 : ℤ).toNat)) :=
  ⟨by norm_num,
    C6_sme_group_equals_four_singles [1, 2] [3, 4, 5, 6, 7, 8, 9, 10]
      [100, 200, 300, 400] 0 0 0 2 (by norm_num)⟩

/-- C7: with `blockDim = 0` the SME inner-loop primitive returns exactly the
four pre-existing accumulator values read from
`outputFlat[outputIdx..outputIdx+3]`; no dot-product call is made (every call
sits under the `blockDim > 0` guard) and no length is reported as an error. -/
theorem C7_sme_zero_blockDim_returns_accumulators
    (lhsFlat rhsFlat outputFlat : List ℚ) (lhsIdx rhsIdx outputIdx : ℕ) :
    dotProductInnerLoopSME lhsFlat rhsFlat outputFlat lhsIdx rhsIdx outputIdx
        0 =
      (outputFlat.getD outputIdx 0, outputFlat.getD (outputIdx + 1) 0,
        outputFlat.getD (outputIdx + 2) 0, outputFlat.getD (outputIdx + 3) 0) := by
  simp [dotProductInnerLoopSME]

/-- C8: on darwin/arm64 the BF16 detector reports the conservative `false` for
every execution, regardless of what the hardware capability query would
report — both in the darwin-specific detection file and in the darwin branch
of the arm64 detection file. -/
theorem C8_bf16_detector_forced_off (featBF16 : SysctlResult) :
    detectBF16NEON_darwin featBF16 = false ∧
    detectBF16NEON_arm64 GOOS.darwin featBF16 = false :=
  ⟨rfl, rfl⟩

/-- C10: `dotProductInnerLoopSME` writes to none of its slice arguments: the
state-passing rendering returns `lhsFlat`, `rhsFlat` and `outputFlat` exactly
as they were handed in, and delivers the results only through the four
returned sums. -/
theorem C10_sme_inner_loop_frame
    (lhsFlat rhsFlat outputFlat : List ℚ) (lhsIdx rhsIdx outputIdx : ℕ)
    (blockDim : ℤ) :
    dotProductInnerLoopSMEFrame lhsFlat rhsFlat outputFlat lhsIdx rhsIdx
        outputIdx blockDim =
      (dotProductInnerLoopSME lhsFlat rhsFlat outputFlat lhsIdx rhsIdx
          outputIdx blockDim,
        lhsFlat, rhsFlat, outputFlat) :=
  rfl

end SimpleGo
